import Mathlib

/-!
Shallow embedding of the hotmic metrics-aggregation core.

The repository provides `src/data/mod.rs` (facets, samples, percentiles,
snapshots) and `src/receiver.rs` (the aggregator).  The view modules
(`counter.rs`, `gauge.rs`, `histogram.rs`), the channel machinery and the
configuration builder are declared but their sources are not present; those
parts are modelled from the specification and are marked as such in their
doc comments.

Metric keys are embedded as their displayed strings (the engine only uses a
key through hashing, equality and `Display`); instants and durations are
nanosecond counts (`Nat`); the hash maps of the source are embedded as
association lists with first-match lookup.
-/

/-- Association-list lookup standing in for the hash-map `get` of the source.
The first matching entry wins, so consing a pair models an overwriting
`insert`. -/
def lookupS {α : Type} : List (String × α) → String → Option α
  | [], _ => none
  | (k, v) :: t, q => if k = q then some v else lookupS t q

/-- In-place value update of a hash map: every entry whose key matches is
rewritten, all other entries are untouched.  An absent key makes this a
no-op, which is exactly the "update for an unregistered key is ignored"
behaviour of the views. -/
def modifyS {α : Type} (m : List (String × α)) (k : String) (f : α → α) :
    List (String × α) :=
  m.map (fun e => if e.1 = k then (e.1, f e.2) else e)

/-- Hash-map key removal, as used by the view `deregister` operations. -/
def removeS {α : Type} (m : List (String × α)) (k : String) :
    List (String × α) :=
  m.filter (fun e => e.1 ≠ k)

/-- `Percentile(pub String, pub f64)` from `src/data/mod.rs`: a display label
together with a quantile in `[0, 100]`.  The `f64` quantile is embedded as a
rational, which represents every literal appearing in the source exactly. -/
structure Percentile where
  label : String
  q : ℚ
deriving DecidableEq

/-- `Facet<T>` from `src/data/mod.rs`: a registration of a derived view. -/
inductive Facet
  | Count (key : String)
  | Gauge (key : String)
  | TimingPercentile (key : String)
  | ValuePercentile (key : String)
deriving DecidableEq

/-- `Sample<T>` from `src/data/mod.rs`.  `Timing` carries start and end
instants (nanoseconds) and an auxiliary count; `Count` a signed delta;
`Value` an unsigned gauge write. -/
inductive Sample
  | Timing (key : String) (start stop : Nat) (count : Nat)
  | Count (key : String) (delta : Int)
  | Value (key : String) (value : Nat)
deriving DecidableEq

/-- Modelled from the spec: the HDR histogram used by the windowed view
(`hdrhistogram` is an external crate; §3 of the spec fixes bounds
`[1, u64::MAX]`).  It is embedded as the multiset of recorded values;
`record` saturates into the configured bounds. -/
structure Hdr where
  values : List Nat
deriving DecidableEq

def Hdr.empty : Hdr := ⟨[]⟩

def Hdr.record (h : Hdr) (v : Nat) : Hdr :=
  ⟨h.values ++ [min (max v 1) (2 ^ 64 - 1)]⟩

def Hdr.merge (a b : Hdr) : Hdr := ⟨a.values ++ b.values⟩

/-- Insertion into a sorted list, the building block of the sort used to
read percentiles off the embedded histogram. -/
def insertSorted (x : Nat) : List Nat → List Nat
  | [] => [x]
  | y :: ys => if x ≤ y then x :: y :: ys else y :: insertSorted x ys

def sortNat (l : List Nat) : List Nat := l.foldr insertSorted []

/-- The nearest-rank index numerator `⌈q * n / 100⌉` for a quantile
`q` over `n` recorded values, computed on the rational's numerator and
denominator with integer floor division so that it reduces in the
kernel. -/
def rankCeil (q : ℚ) (n : Nat) : Int :=
  -(Int.fdiv (-(q.num * (n : Int))) ((100 : Int) * (q.den : Int)))

/-- Modelled from the spec: `value_at_percentile` of the HDR histogram,
embedded as exact nearest-rank selection on the recorded multiset (an HDR
histogram reports these values within its configured relative error; the
empty histogram reports 0). -/
def Hdr.value_at_percentile (h : Hdr) (q : ℚ) : Nat :=
  match sortNat h.values with
  | [] => 0
  | x :: xs =>
    let s := x :: xs
    let n := s.length
    let r := (rankCeil q n - 1).toNat
    s.getD (min r (n - 1)) 0

/-- `Snapshot<T>` from `src/data/mod.rs`: two flat maps keyed by synthesised
string labels. -/
structure Snapshot where
  signed_data : List (String × Int)
  unsigned_data : List (String × Nat)
deriving DecidableEq

/-- `Snapshot::new`. -/
def Snapshot.new : Snapshot := ⟨[], []⟩

/-- `Snapshot::set_count`: stores under the label `"{key}_count"`. -/
def Snapshot.set_count (s : Snapshot) (key : String) (value : Int) :
    Snapshot :=
  { s with signed_data := (key ++ "_count", value) :: s.signed_data }

/-- `Snapshot::set_value`: stores under the label `"{key}_value"`. -/
def Snapshot.set_value (s : Snapshot) (key : String) (value : Nat) :
    Snapshot :=
  { s with unsigned_data := (key ++ "_value", value) :: s.unsigned_data }

/-- `Snapshot::set_timing_percentiles`: for each percentile, stores
`h.value_at_percentile(q)` under the label `"{key}_ns_{label}"`. -/
def Snapshot.set_timing_percentiles (s : Snapshot) (key : String) (h : Hdr)
    (ps : List Percentile) : Snapshot :=
  ps.foldl
    (fun acc p =>
      { acc with
        unsigned_data :=
          (key ++ "_ns_" ++ p.label, h.value_at_percentile p.q) ::
            acc.unsigned_data })
    s

/-- `Snapshot::set_value_percentiles`: for each percentile, stores
`h.value_at_percentile(q)` under the label `"{key}_value_{label}"`. -/
def Snapshot.set_value_percentiles (s : Snapshot) (key : String) (h : Hdr)
    (ps : List Percentile) : Snapshot :=
  ps.foldl
    (fun acc p =>
      { acc with
        unsigned_data :=
          (key ++ "_value_" ++ p.label, h.value_at_percentile p.q) ::
            acc.unsigned_data })
    s

/-- `Snapshot::count`: looks up the label `"{key}_count"`. -/
def Snapshot.count (s : Snapshot) (key : String) : Option Int :=
  lookupS s.signed_data (key ++ "_count")

/-- `Snapshot::value`: looks up the label `"{key}_value"`. -/
def Snapshot.value (s : Snapshot) (key : String) : Option Nat :=
  lookupS s.unsigned_data (key ++ "_value")

/-- `Snapshot::timing_percentile`: looks up the label
`"{key}_ns_{label}"`; only the percentile's label enters the lookup. -/
def Snapshot.timing_percentile (s : Snapshot) (key : String)
    (p : Percentile) : Option Nat :=
  lookupS s.unsigned_data (key ++ "_ns_" ++ p.label)

/-- `Snapshot::value_percentile`: looks up the label
`"{key}_value_{label}"`; only the percentile's label enters the lookup. -/
def Snapshot.value_percentile (s : Snapshot) (key : String)
    (p : Percentile) : Option Nat :=
  lookupS s.unsigned_data (key ++ "_value_" ++ p.label)

/-- `default_percentiles` from `src/data/mod.rs`, built by the same push
sequence as the source. -/
def default_percentiles : List Percentile :=
  ((((((([] : List Percentile).concat ⟨"min", 0.0⟩).concat
    ⟨"p50", 50.0⟩).concat ⟨"p90", 90.0⟩).concat ⟨"p99", 99.0⟩).concat
    ⟨"p999", 99.9⟩).concat ⟨"max", 100.0⟩)

/-- Modelled from the spec: the counter view of the missing
`src/data/counter.rs` (§4.1).  A map from key to signed running total; a key
present in the map is registered; `register` keeps an existing total
(`or_insert` semantics). -/
structure Counter where
  data : List (String × Int)
deriving DecidableEq

def Counter.new : Counter := ⟨[]⟩

/-- Modelled from the spec: `Counter::register`, inserting a zero total only
when the key is absent. -/
def Counter.register (c : Counter) (k : String) : Counter :=
  match lookupS c.data k with
  | some _ => c
  | none => ⟨(k, 0) :: c.data⟩

/-- Modelled from the spec: `Counter::deregister`.  Registration is defined
as presence in the map (§4.1), so deregistering removes the key together
with its recorded total. -/
def Counter.deregister (c : Counter) (k : String) : Counter :=
  ⟨removeS c.data k⟩

/-- Modelled from the spec: `Counter::update` (§3).  A `Timing` sample adds
one event, a `Count` sample adds its signed delta, a `Value` sample is
ignored; updates of unregistered keys are ignored. -/
def Counter.update (c : Counter) (s : Sample) : Counter :=
  match s with
  | .Timing k _ _ _ => ⟨modifyS c.data k (fun v => v + 1)⟩
  | .Count k d => ⟨modifyS c.data k (fun v => v + d)⟩
  | .Value _ _ => c

/-- Modelled from the spec: `Counter::value`, returning the stored default 0
for a key that is not in the map. -/
def Counter.value (c : Counter) (k : String) : Int :=
  (lookupS c.data k).getD 0

/-- Modelled from the spec: the gauge view of the missing
`src/data/gauge.rs` (§4.2), a last-write-wins unsigned value per key. -/
structure Gauge where
  data : List (String × Nat)
deriving DecidableEq

def Gauge.new : Gauge := ⟨[]⟩

/-- Modelled from the spec: `Gauge::register`. -/
def Gauge.register (g : Gauge) (k : String) : Gauge :=
  match lookupS g.data k with
  | some _ => g
  | none => ⟨(k, 0) :: g.data⟩

/-- Modelled from the spec: `Gauge::deregister`, removing the key and its
stored value. -/
def Gauge.deregister (g : Gauge) (k : String) : Gauge :=
  ⟨removeS g.data k⟩

/-- Modelled from the spec: `Gauge::update`; only `Value` samples write,
and only for registered keys. -/
def Gauge.update (g : Gauge) (s : Sample) : Gauge :=
  match s with
  | .Value k v => ⟨modifyS g.data k (fun _ => v)⟩
  | _ => g

/-- Modelled from the spec: `Gauge::value`, 0 for a key not in the map. -/
def Gauge.value (g : Gauge) (k : String) : Nat :=
  (lookupS g.data k).getD 0

/-- Modelled from the spec: the per-key state of the windowed histogram view
(§4.3): a ring of `N = W/I` sub-histograms with a head index, the instant of
the last rotation, and a live aggregate equal to the merge of the ring. -/
structure WindowedHistogram where
  window : Nat
  interval : Nat
  buckets : List Hdr
  head : Nat
  t_last : Nat
  live : Hdr
deriving DecidableEq

/-- Modelled from the spec: a fresh per-key ring; the last-rotation instant
starts at the engine epoch. -/
def WindowedHistogram.new (window interval : Nat) : WindowedHistogram :=
  ⟨window, interval, List.replicate (window / interval) Hdr.empty, 0, 0,
    Hdr.empty⟩

def mergeAll (bs : List Hdr) : Hdr := bs.foldl Hdr.merge Hdr.empty

/-- Modelled from the spec: one rotation step of §4.3: advance the head,
clear the outgoing slot, and re-merge the ring into the live aggregate
(the re-merge strategy of §9, as HDR subtraction is not assumed). -/
def WindowedHistogram.rotate (wh : WindowedHistogram) : WindowedHistogram :=
  let n := wh.buckets.length
  let h2 := (wh.head + 1) % n
  let bs := wh.buckets.set h2 Hdr.empty
  { wh with head := h2, buckets := bs, live := mergeAll bs }

def WindowedHistogram.rotateN : Nat → WindowedHistogram → WindowedHistogram
  | 0, wh => wh
  | k + 1, wh => WindowedHistogram.rotateN k wh.rotate

/-- Modelled from the spec: `upkeep(now)` of §4.3.  The `while now - t_last
≥ I` loop performs exactly `(now - t_last) / I` rotations and advances
`t_last` by that many intervals, which is the closed form of the loop for a
positive interval. -/
def WindowedHistogram.upkeep (wh : WindowedHistogram) (now : Nat) :
    WindowedHistogram :=
  let k := (now - wh.t_last) / wh.interval
  { WindowedHistogram.rotateN k wh with
    t_last := wh.t_last + k * wh.interval }

/-- Modelled from the spec: recording a value writes it both to the current
head sub-histogram and to the live aggregate. -/
def WindowedHistogram.update (wh : WindowedHistogram) (v : Nat) :
    WindowedHistogram :=
  { wh with
    buckets :=
      wh.buckets.set wh.head ((wh.buckets.getD wh.head Hdr.empty).record v),
    live := wh.live.record v }

/-- Modelled from the spec: the windowed histogram view of the missing
`src/data/histogram.rs` (§4.3), mapping each registered key to its ring. -/
structure Histogram where
  window : Nat
  interval : Nat
  data : List (String × WindowedHistogram)
deriving DecidableEq

/-- `Histogram::new(window, granularity)`; both durations in nanoseconds. -/
def Histogram.new (window interval : Nat) : Histogram :=
  ⟨window, interval, []⟩

/-- Modelled from the spec: `Histogram::register`, creating a fresh ring for
an absent key and keeping an existing one. -/
def Histogram.register (hv : Histogram) (k : String) : Histogram :=
  match lookupS hv.data k with
  | some _ => hv
  | none =>
    ⟨hv.window, hv.interval,
      (k, WindowedHistogram.new hv.window hv.interval) :: hv.data⟩

/-- Modelled from the spec: `Histogram::deregister`, removing the key and
its ring. -/
def Histogram.deregister (hv : Histogram) (k : String) : Histogram :=
  ⟨hv.window, hv.interval, removeS hv.data k⟩

/-- Modelled from the spec: `Histogram::update` (§3).  `Timing` records the
saturating nanosecond delta `end - start`, `Value` records the raw value,
`Count` does not touch histograms; unregistered keys are ignored. -/
def Histogram.update (hv : Histogram) (s : Sample) : Histogram :=
  match s with
  | .Timing k start stop _ =>
    ⟨hv.window, hv.interval,
      modifyS hv.data k (fun wh => wh.update (stop - start))⟩
  | .Value k v =>
    ⟨hv.window, hv.interval, modifyS hv.data k (fun wh => wh.update v)⟩
  | .Count _ _ => hv

/-- Modelled from the spec: `Histogram::upkeep(now)` runs the per-key upkeep
of every registered ring. -/
def Histogram.upkeep (hv : Histogram) (now : Nat) : Histogram :=
  ⟨hv.window, hv.interval, hv.data.map (fun e => (e.1, e.2.upkeep now))⟩

/-- Modelled from the spec: `Histogram::snapshot(key)` clones the live
aggregate of a registered key and returns `None` for an unregistered
one. -/
def Histogram.snapshot (hv : Histogram) (k : String) : Option Hdr :=
  (lookupS hv.data k).map (fun wh => wh.live)

/-- Modelled from the spec: the builder configuration (§6) with capacity
1024, batch size 512 and a 100 ms poll delay (nanoseconds). -/
structure Configuration where
  capacity : Nat
  batch_size : Nat
  poll_delay : Nat
deriving DecidableEq

def Configuration.default : Configuration := ⟨1024, 512, 100000000⟩

/-- A sample batch: a `Vec<Sample>` embedded as its reserved capacity
together with its contents.  `clear` drops the contents and keeps the
reservation, as in the source. -/
structure Batch where
  cap : Nat
  data : List Sample
deriving DecidableEq

def Batch.withCapacity (n : Nat) : Batch := ⟨n, []⟩

def Batch.clear (b : Batch) : Batch := ⟨b.cap, []⟩

/-- Modelled from the spec: the bounded buffer-pool channel (§4.5).  `push`
is non-blocking; a batch returned to a full pool is dropped. -/
structure BufferPool where
  cap : Nat
  items : List Batch
deriving DecidableEq

def BufferPool.push (p : BufferPool) (b : Batch) : BufferPool :=
  if p.items.length < p.cap then ⟨p.cap, p.items ++ [b]⟩ else p

/-- Modelled from the spec: the control requests of the missing
`src/control.rs` (§4.7).  The one-shot reply sender of `Snapshot` is
modelled by the receiver appending the served snapshot to an output
list. -/
inductive ControlMessage
  | AddFacet (f : Facet)
  | RemoveFacet (f : Facet)
  | Snapshot
deriving DecidableEq

/-- The two poll registrations `DATA` and `CONTROL` of `src/receiver.rs`. -/
inductive Token
  | DATA
  | CONTROL
deriving DecidableEq

/-- `Receiver<T>` from `src/receiver.rs`.  The mio poller is modelled by
passing the list of ready tokens into `turn`; the channel receive ends are
the pending queues; `sentSnapshots` records the snapshots pushed into
one-shot reply channels. -/
structure Receiver where
  conf : Configuration
  bufferPool : BufferPool
  dataQueue : List Batch
  controlQueue : List ControlMessage
  facets : List Facet
  counter : Counter
  gauge : Gauge
  histogram : Histogram
  percentiles : List Percentile
  last_upkeep : Nat
  sentSnapshots : List Snapshot
deriving DecidableEq

/-- `Receiver::from_config`: pre-push `capacity` batches of reserved size
`batch_size` into the bounded pool, create empty views, a windowed
histogram over a 10 s window with 1 s interval, the default percentiles,
and `last_upkeep = Instant::now()` (the engine epoch 0). -/
def Receiver.from_config (conf : Configuration) : Receiver :=
  { conf := conf
    bufferPool :=
      (List.range conf.capacity).foldl
        (fun p _ => p.push (Batch.withCapacity conf.batch_size))
        ⟨conf.capacity, []⟩
    dataQueue := []
    controlQueue := []
    facets := []
    counter := Counter.new
    gauge := Gauge.new
    histogram := Histogram.new (10 * 1000000000) (1 * 1000000000)
    percentiles := default_percentiles
    last_upkeep := 0
    sentSnapshots := [] }

/-- `HashSet::insert` on the facet set: duplicates leave the set (and its
iteration order) unchanged. -/
def insertFacet (fs : List Facet) (f : Facet) : List Facet :=
  if f ∈ fs then fs else fs ++ [f]

/-- `Receiver::add_facet`: register the key with the corresponding view
(both percentile facets register with the histogram view) and insert the
facet into the set. -/
def Receiver.add_facet (r : Receiver) (f : Facet) : Receiver :=
  let r2 :=
    match f with
    | .Count k => { r with counter := r.counter.register k }
    | .Gauge k => { r with gauge := r.gauge.register k }
    | .TimingPercentile k => { r with histogram := r.histogram.register k }
    | .ValuePercentile k => { r with histogram := r.histogram.register k }
  { r2 with facets := insertFacet r2.facets f }

/-- `Receiver::remove_facet`: deregister the key from the corresponding
view (both percentile facets deregister from the histogram view) and remove
the facet from the set. -/
def Receiver.remove_facet (r : Receiver) (f : Facet) : Receiver :=
  let r2 :=
    match f with
    | .Count k => { r with counter := r.counter.deregister k }
    | .Gauge k => { r with gauge := r.gauge.deregister k }
    | .TimingPercentile k => { r with histogram := r.histogram.deregister k }
    | .ValuePercentile k => { r with histogram := r.histogram.deregister k }
  { r2 with facets := r2.facets.filter (fun g => g ≠ f) }

/-- The loop body of the `ControlMessage::Snapshot` branch of
`Receiver::turn`: one facet fills its slot of the snapshot under
construction; a percentile facet whose key has no histogram ring
contributes nothing. -/
def Receiver.snapStep (r : Receiver) (snap : Snapshot) (f : Facet) :
    Snapshot :=
  match f with
  | .Count k => snap.set_count k (r.counter.value k)
  | .Gauge k => snap.set_value k (r.gauge.value k)
  | .TimingPercentile k =>
    match r.histogram.snapshot k with
    | some hs => snap.set_timing_percentiles k hs r.percentiles
    | none => snap
  | .ValuePercentile k =>
    match r.histogram.snapshot k with
    | some hs => snap.set_value_percentiles k hs r.percentiles
    | none => snap

/-- The `ControlMessage::Snapshot` branch of `Receiver::turn`: iterate the
facet set and fill a fresh `Snapshot` from the views. -/
def Receiver.buildSnapshot (r : Receiver) : Snapshot :=
  r.facets.foldl r.snapStep Snapshot.new

/-- A side condition stating that facet `g`, served by receiver `r`, cannot
write the unsigned snapshot label `L`. -/
abbrev avoidsU (r : Receiver) (L : String) (g : Facet) : Prop :=
  match g with
  | .Count _ => True
  | .Gauge k2 => k2 ++ "_value" ≠ L
  | .TimingPercentile k2 => ∀ p ∈ r.percentiles, k2 ++ "_ns_" ++ p.label ≠ L
  | .ValuePercentile k2 =>
    ∀ p ∈ r.percentiles, k2 ++ "_value_" ++ p.label ≠ L

/-- The body of the sample loop in the `DATA` branch of `Receiver::turn`:
each sample is passed to all three views unconditionally. -/
def Receiver.applySample (r : Receiver) (s : Sample) : Receiver :=
  { r with
    counter := r.counter.update s
    gauge := r.gauge.update s
    histogram := r.histogram.update s }

/-- One ready event of `Receiver::turn`: a `DATA` event receives one batch,
applies every sample to the three views, clears the batch and returns it to
the pool; a `CONTROL` event receives one message and dispatches it.  A
failed receive (empty queue) does nothing. -/
def Receiver.handleEvent (r : Receiver) (t : Token) : Receiver :=
  match t with
  | .DATA =>
    match r.dataQueue with
    | [] => r
    | b :: rest =>
      let r2 := b.data.foldl Receiver.applySample { r with dataQueue := rest }
      { r2 with bufferPool := r2.bufferPool.push b.clear }
  | .CONTROL =>
    match r.controlQueue with
    | [] => r
    | m :: rest =>
      let r2 := { r with controlQueue := rest }
      match m with
      | .AddFacet f => r2.add_facet f
      | .RemoveFacet f => r2.remove_facet f
      | .Snapshot =>
        { r2 with sentSnapshots := r2.sentSnapshots ++ [r2.buildSnapshot] }

/-- The upkeep step at the top of `Receiver::turn`: when `now ≥ last_upkeep
+ 250 ms` the histogram upkeep runs.  The source does not assign
`last_upkeep` here, and this embedding reproduces that faithfully. -/
def Receiver.upkeepStep (r : Receiver) (now : Nat) : Receiver :=
  if r.last_upkeep + 250000000 ≤ now then
    { r with histogram := r.histogram.upkeep now }
  else r

/-- `Receiver::turn`: run the upkeep step first, then handle the events
reported by the poll, in order. -/
def Receiver.turn (r : Receiver) (now : Nat) (events : List Token) :
    Receiver :=
  events.foldl Receiver.handleEvent (r.upkeepStep now)

/-! ### Concrete instances used in counterexamples and witnesses -/

/-- A small concrete configuration: capacity 4, batch size 2, 100 ms poll
delay. -/
def confS : Configuration := ⟨4, 2, 100000000⟩

/-- A fresh receiver with a timing-percentile facet for key `"k"`. -/
def rcvT : Receiver :=
  (Receiver.from_config confS).add_facet (Facet.TimingPercentile "k")

/-- `rcvT` after one turn at `t = 1.9 s` with no ready events. -/
def rcvT1 : Receiver := rcvT.turn 1900000000 []

/-- `rcvT1` after a further turn at `t = 2.05 s`, only 150 ms later. -/
def rcvT2 : Receiver := rcvT1.turn 2050000000 []

/-- A fresh receiver with count, gauge and timing-percentile facets
registered for key `"k"` and no data received, as in scenario F. -/
def rcvF : Receiver :=
  (((Receiver.from_config confS).add_facet (Facet.Count "k")).add_facet
    (Facet.Gauge "k")).add_facet (Facet.TimingPercentile "k")

/-- A receiver with one pending data batch of one sample; the batch was
checked out of the pool, which therefore holds three of its four slots. -/
def rcvD : Receiver :=
  { Receiver.from_config confS with
    dataQueue := [⟨2, [Sample.Count "k" 3]⟩]
    bufferPool := ⟨4, List.replicate 3 (Batch.withCapacity 2)⟩ }

/-- A receiver with a registered count facet whose counter has recorded a
delta of 5. -/
def rcvC1 : Receiver :=
  ((Receiver.from_config confS).add_facet (Facet.Count "k")).applySample
    (Sample.Count "k" 5)

/-- `rcvC1` after removing the count facet again. -/
def rcvC2 : Receiver := rcvC1.remove_facet (Facet.Count "k")

/-- The quantile 0, as an explicit rational so that it reduces in the
kernel. -/
def q0 : ℚ := ⟨0, 1, by decide, by decide⟩

/-- The quantile 100, as an explicit rational. -/
def q100 : ℚ := ⟨100, 1, by decide, by decide⟩

/-- A two-value histogram whose minimum 1 and maximum 1000 differ. -/
def hdrCE : Hdr := ⟨[1, 1000]⟩

/-- One call to a `Snapshot` setter, used to quantify over every snapshot
that a sequence of setter calls can build. -/
inductive SetterOp
  | count (key : String) (v : Int)
  | value (key : String) (v : Nat)
  | timing (key : String) (h : Hdr) (ps : List Percentile)
  | valuep (key : String) (h : Hdr) (ps : List Percentile)

/-- Runs one setter call on a snapshot. -/
def SetterOp.apply (s : Snapshot) : SetterOp → Snapshot
  | .count k v => s.set_count k v
  | .value k v => s.set_value k v
  | .timing k h ps => s.set_timing_percentiles k h ps
  | .valuep k h ps => s.set_value_percentiles k h ps

/-- The snapshot built by a sequence of setter calls. -/
def applyOps (s : Snapshot) (ops : List SetterOp) : Snapshot :=
  ops.foldl SetterOp.apply s

/-- The labels a setter call stores in the signed map. -/
def SetterOp.signedLabels : SetterOp → List String
  | .count k _ => [k ++ "_count"]
  | .value _ _ => []
  | .timing _ _ _ => []
  | .valuep _ _ _ => []

/-- The labels a setter call stores in the unsigned map. -/
def SetterOp.unsignedLabels : SetterOp → List String
  | .count _ _ => []
  | .value k _ => [k ++ "_value"]
  | .timing k _ ps => ps.map (fun p => k ++ "_ns_" ++ p.label)
  | .valuep k _ ps => ps.map (fun p => k ++ "_value_" ++ p.label)

/-! ### Helper lemmas about strings and association lists -/

theorem strData (a b : String) : (a ++ b).data = a.data ++ b.data := rfl

theorem strExt {s t : String} (h : s.data = t.data) : s = t :=
  congrArg String.mk h

theorem appLeftCancel (k : String) {A B : String} (h : k ++ A = k ++ B) :
    A = B := by
  have hd : k.data ++ A.data = k.data ++ B.data := congrArg String.data h
  exact strExt (List.append_cancel_left hd)

theorem appLeftNe (k : String) {A B : String} (h : A ≠ B) :
    k ++ A ≠ k ++ B :=
  fun e => h (appLeftCancel k e)

theorem appRightCancel (s : String) {A B : String} (h : A ++ s = B ++ s) :
    A = B := by
  have hd : A.data ++ s.data = B.data ++ s.data := congrArg String.data h
  exact strExt (List.append_cancel_right hd)

theorem appRightNe (s : String) {A B : String} (h : A ≠ B) :
    A ++ s ≠ B ++ s :=
  fun e => h (appRightCancel s e)

/-- Two appended strings differ whenever their suffixes differ somewhere in
the last `m` characters. -/
theorem revTakeNe (m : Nat) {A B : String} (a b : String)
    (hA : m ≤ A.data.length) (hB : m ≤ B.data.length)
    (h : A.data.reverse.take m ≠ B.data.reverse.take m) :
    a ++ A ≠ b ++ B := by
  intro e
  have hd : a.data ++ A.data = b.data ++ B.data := by
    simpa [strData] using congrArg String.data e
  have hr : A.data.reverse ++ a.data.reverse =
      B.data.reverse ++ b.data.reverse := by
    simpa [List.reverse_append] using congrArg List.reverse hd
  have ht : A.data.reverse.take m = B.data.reverse.take m := by
    have h1 : (A.data.reverse ++ a.data.reverse).take m =
        A.data.reverse.take m :=
      List.take_append_of_le_length (by simpa using hA)
    have h2 : (B.data.reverse ++ b.data.reverse).take m =
        B.data.reverse.take m :=
      List.take_append_of_le_length (by simpa using hB)
    rw [← h1, ← h2, hr]
  exact h ht

theorem strAssoc (a b c : String) : a ++ b ++ c = a ++ (b ++ c) :=
  strExt (by simp [strData, List.append_assoc])

theorem lenNe {A B : String} (h : A.data.length ≠ B.data.length) :
    A ≠ B :=
  fun e => h (congrArg (fun s => s.data.length) e)

/-- Two appended strings differ whenever their prefixes differ somewhere in
the first `m` characters. -/
theorem appTakeNe (m : Nat) {A B : String} (a b : String)
    (hA : m ≤ A.data.length) (hB : m ≤ B.data.length)
    (h : A.data.take m ≠ B.data.take m) : A ++ a ≠ B ++ b := by
  intro e
  have hd : A.data ++ a.data = B.data ++ b.data := congrArg String.data e
  have h1 : (A.data ++ a.data).take m = A.data.take m :=
    List.take_append_of_le_length hA
  have h2 : (B.data ++ b.data).take m = B.data.take m :=
    List.take_append_of_le_length hB
  exact h (by rw [← h1, ← h2, hd])

/-- An appended string differs from a plain string whose first `m`
characters differ from those of the left part. -/
theorem appTakeNeR (m : Nat) {A B : String} (a : String)
    (hA : m ≤ A.data.length) (_hB : m ≤ B.data.length)
    (h : A.data.take m ≠ B.data.take m) : A ++ a ≠ B := by
  intro e
  have hd : A.data ++ a.data = B.data := congrArg String.data e
  have h1 : (A.data ++ a.data).take m = A.data.take m :=
    List.take_append_of_le_length hA
  exact h (by rw [← h1, hd])

theorem lookupS_cons_eq {α : Type} (m : List (String × α)) (k : String)
    (v : α) : lookupS ((k, v) :: m) k = some v := by
  simp [lookupS]

theorem lookupS_cons_ne {α : Type} (m : List (String × α)) {k q : String}
    (v : α) (h : k ≠ q) : lookupS ((k, v) :: m) q = lookupS m q := by
  simp [lookupS, h]

theorem lookupS_append {α : Type} (xs ys : List (String × α)) (q : String) :
    lookupS (xs ++ ys) q = (lookupS xs q).or (lookupS ys q) := by
  induction xs with
  | nil => simp [lookupS]
  | cons e t ih =>
    obtain ⟨k, v⟩ := e
    by_cases h : k = q
    · subst h; simp [lookupS]
    · simp [lookupS, h, ih]

theorem lookupS_eq_none {α : Type} {m : List (String × α)} {q : String}
    (h : ∀ e ∈ m, e.1 ≠ q) : lookupS m q = none := by
  induction m with
  | nil => rfl
  | cons e t ih =>
    obtain ⟨k, v⟩ := e
    have hk : k ≠ q := h (k, v) (by simp)
    simp only [lookupS, if_neg hk]
    exact ih fun e he => h e (by simp [he])

theorem lookupS_removeS {α : Type} (m : List (String × α)) (k : String) :
    lookupS (removeS m k) k = none := by
  refine lookupS_eq_none ?_
  intro e he
  have := List.of_mem_filter he
  simpa using this

/-- Looking up the key of a member of a key-value list built by `map`,
when every member carrying the same key carries the same value. -/
theorem lookupS_map_some {α β : Type} (f : α → String) (g : α → β)
    {l : List α} {p : α} (hp : p ∈ l)
    (hu : ∀ r ∈ l, f r = f p → g r = g p) :
    lookupS (l.map (fun r => (f r, g r))) (f p) = some (g p) := by
  induction l with
  | nil => cases hp
  | cons a t ih =>
    by_cases h : f a = f p
    · simp only [List.map_cons, lookupS, if_pos h]
      exact congrArg some (hu a (by simp) h)
    · simp only [List.map_cons, lookupS, if_neg h]
      rcases List.mem_cons.mp hp with rfl | hp2
      · exact absurd rfl h
      · exact ih hp2 fun r hr => hu r (by simp [hr])

theorem lookupS_map_none {α β : Type} (f : α → String) (g : α → β)
    {l : List α} {q : String} (h : ∀ r ∈ l, f r ≠ q) :
    lookupS (l.map (fun r => (f r, g r))) q = none := by
  refine lookupS_eq_none ?_
  intro e he
  rcases List.mem_map.mp he with ⟨r, hr, rfl⟩
  exact h r hr

/-! ### Helper lemmas about the snapshot setters -/

theorem set_timing_percentiles_signed (s : Snapshot) (key : String)
    (h : Hdr) (ps : List Percentile) :
    (s.set_timing_percentiles key h ps).signed_data = s.signed_data := by
  induction ps generalizing s with
  | nil => rfl
  | cons p t ih => simpa [Snapshot.set_timing_percentiles] using ih _

theorem set_timing_percentiles_unsigned (s : Snapshot) (key : String)
    (h : Hdr) (ps : List Percentile) :
    (s.set_timing_percentiles key h ps).unsigned_data =
      (ps.map (fun p =>
        (key ++ "_ns_" ++ p.label, h.value_at_percentile p.q))).reverse ++
        s.unsigned_data := by
  induction ps generalizing s with
  | nil => rfl
  | cons p t ih =>
    have hstep : s.set_timing_percentiles key h (p :: t) =
        ({ s with
          unsigned_data :=
            (key ++ "_ns_" ++ p.label, h.value_at_percentile p.q) ::
              s.unsigned_data }).set_timing_percentiles key h t := rfl
    rw [hstep, ih]
    simp

theorem set_value_percentiles_signed (s : Snapshot) (key : String)
    (h : Hdr) (ps : List Percentile) :
    (s.set_value_percentiles key h ps).signed_data = s.signed_data := by
  induction ps generalizing s with
  | nil => rfl
  | cons p t ih => simpa [Snapshot.set_value_percentiles] using ih _

theorem set_value_percentiles_unsigned (s : Snapshot) (key : String)
    (h : Hdr) (ps : List Percentile) :
    (s.set_value_percentiles key h ps).unsigned_data =
      (ps.map (fun p =>
        (key ++ "_value_" ++ p.label, h.value_at_percentile p.q))).reverse ++
        s.unsigned_data := by
  induction ps generalizing s with
  | nil => rfl
  | cons p t ih =>
    have hstep : s.set_value_percentiles key h (p :: t) =
        ({ s with
          unsigned_data :=
            (key ++ "_value_" ++ p.label, h.value_at_percentile p.q) ::
              s.unsigned_data }).set_value_percentiles key h t := rfl
    rw [hstep, ih]
    simp

/-- A setter sequence none of whose calls stores the signed label `L`
leaves the lookup of `L` in the signed map untouched. -/
theorem applyOps_signed_lookup (ops : List SetterOp) (s : Snapshot)
    (L : String) (h : ∀ op ∈ ops, L ∉ op.signedLabels) :
    lookupS (applyOps s ops).signed_data L = lookupS s.signed_data L := by
  induction ops generalizing s with
  | nil => rfl
  | cons op t ih =>
    rw [show applyOps s (op :: t) = applyOps (SetterOp.apply s op) t
      from rfl]
    rw [ih _ fun op2 h2 => h op2 (by simp [h2])]
    have hop := h op (by simp)
    cases op with
    | count k v =>
      have hne : k ++ "_count" ≠ L := by
        simpa [SetterOp.signedLabels, eq_comm] using hop
      exact lookupS_cons_ne _ _ hne
    | value k v => rfl
    | timing k hh ps => rw [SetterOp.apply, set_timing_percentiles_signed]
    | valuep k hh ps => rw [SetterOp.apply, set_value_percentiles_signed]

/-- A setter sequence none of whose calls stores the unsigned label `L`
leaves the lookup of `L` in the unsigned map untouched. -/
theorem applyOps_unsigned_lookup (ops : List SetterOp) (s : Snapshot)
    (L : String) (h : ∀ op ∈ ops, L ∉ op.unsignedLabels) :
    lookupS (applyOps s ops).unsigned_data L =
      lookupS s.unsigned_data L := by
  induction ops generalizing s with
  | nil => rfl
  | cons op t ih =>
    rw [show applyOps s (op :: t) = applyOps (SetterOp.apply s op) t
      from rfl]
    rw [ih _ fun op2 h2 => h op2 (by simp [h2])]
    have hop := h op (by simp)
    cases op with
    | count k v => rfl
    | value k v =>
      have hne : k ++ "_value" ≠ L := by
        simpa [SetterOp.unsignedLabels, eq_comm] using hop
      exact lookupS_cons_ne _ _ hne
    | timing k hh ps =>
      rw [SetterOp.apply, set_timing_percentiles_unsigned, lookupS_append,
        ← List.map_reverse]
      have hn : ∀ p ∈ ps.reverse, k ++ "_ns_" ++ p.label ≠ L := by
        intro p hp2 e
        exact hop (e ▸ List.mem_map.mpr ⟨p, List.mem_reverse.mp hp2, rfl⟩)
      rw [lookupS_map_none (fun p : Percentile => k ++ "_ns_" ++ p.label)
        (fun p : Percentile => hh.value_at_percentile p.q) hn]
      rfl
    | valuep k hh ps =>
      rw [SetterOp.apply, set_value_percentiles_unsigned, lookupS_append,
        ← List.map_reverse]
      have hn : ∀ p ∈ ps.reverse, k ++ "_value_" ++ p.label ≠ L := by
        intro p hp2 e
        exact hop (e ▸ List.mem_map.mpr ⟨p, List.mem_reverse.mp hp2, rfl⟩)
      rw [lookupS_map_none (fun p : Percentile => k ++ "_value_" ++ p.label)
        (fun p : Percentile => hh.value_at_percentile p.q) hn]
      rfl

/-! ### Helper lemmas about the receiver -/

theorem applySample_last_upkeep (r : Receiver) (s : Sample) :
    (r.applySample s).last_upkeep = r.last_upkeep := rfl

theorem foldl_applySample_last_upkeep (l : List Sample) (r : Receiver) :
    (l.foldl Receiver.applySample r).last_upkeep = r.last_upkeep := by
  induction l generalizing r with
  | nil => rfl
  | cons s t ih => simpa using ih (r.applySample s)

theorem add_facet_last_upkeep (r : Receiver) (f : Facet) :
    (r.add_facet f).last_upkeep = r.last_upkeep := by
  cases f <;> rfl

theorem remove_facet_last_upkeep (r : Receiver) (f : Facet) :
    (r.remove_facet f).last_upkeep = r.last_upkeep := by
  cases f <;> rfl

theorem handleEvent_last_upkeep (r : Receiver) (t : Token) :
    (r.handleEvent t).last_upkeep = r.last_upkeep := by
  cases t with
  | DATA =>
    cases hq : r.dataQueue with
    | nil => simp [Receiver.handleEvent, hq]
    | cons b rest =>
      simp only [Receiver.handleEvent, hq]
      exact foldl_applySample_last_upkeep b.data { r with dataQueue := rest }
  | CONTROL =>
    cases hq : r.controlQueue with
    | nil => simp [Receiver.handleEvent, hq]
    | cons m rest =>
      cases m with
      | AddFacet f =>
        simp only [Receiver.handleEvent, hq]
        exact add_facet_last_upkeep _ f
      | RemoveFacet f =>
        simp only [Receiver.handleEvent, hq]
        exact remove_facet_last_upkeep _ f
      | Snapshot => simp [Receiver.handleEvent, hq]

theorem upkeepStep_last_upkeep (r : Receiver) (now : Nat) :
    (r.upkeepStep now).last_upkeep = r.last_upkeep := by
  unfold Receiver.upkeepStep
  split <;> rfl

theorem foldl_handleEvent_last_upkeep (evts : List Token) (r : Receiver) :
    (evts.foldl Receiver.handleEvent r).last_upkeep = r.last_upkeep := by
  induction evts generalizing r with
  | nil => rfl
  | cons t rest ih =>
    simpa [handleEvent_last_upkeep] using ih (r.handleEvent t)

theorem counter_register_idem (c : Counter) (k : String) :
    (c.register k).register k = c.register k := by
  unfold Counter.register
  cases h : lookupS c.data k with
  | some v => simp [h]
  | none => simp [h, lookupS_cons_eq]

theorem gauge_register_idem (g : Gauge) (k : String) :
    (g.register k).register k = g.register k := by
  unfold Gauge.register
  cases h : lookupS g.data k with
  | some v => simp [h]
  | none => simp [h, lookupS_cons_eq]

theorem histogram_register_idem (hv : Histogram) (k : String) :
    (hv.register k).register k = hv.register k := by
  unfold Histogram.register
  cases h : lookupS hv.data k with
  | some v => simp [h]
  | none => simp [h, lookupS_cons_eq]

theorem insertFacet_mem (fs : List Facet) (f : Facet) :
    f ∈ insertFacet fs f := by
  unfold insertFacet
  split
  · assumption
  · simp

theorem insertFacet_idem (fs : List Facet) (f : Facet) :
    insertFacet (insertFacet fs f) f = insertFacet fs f := by
  have h := insertFacet_mem fs f
  show (if f ∈ insertFacet fs f then insertFacet fs f
    else insertFacet fs f ++ [f]) = insertFacet fs f
  rw [if_pos h]

theorem pool_fill (b : Batch) (k : Nat) (p : BufferPool)
    (h : p.items.length + k ≤ p.cap) :
    (List.range k).foldl (fun acc _ => acc.push b) p =
      ⟨p.cap, p.items ++ List.replicate k b⟩ := by
  induction k generalizing p with
  | zero => simp
  | succ n ih =>
    rw [List.range_succ, List.foldl_append]
    have hn : p.items.length + n ≤ p.cap := by omega
    rw [ih p hn]
    simp only [List.foldl_cons, List.foldl_nil, BufferPool.push]
    rw [if_pos (by simp; omega)]
    simp [List.replicate_succ']

theorem foldl_applySample_eq (l : List Sample) (r : Receiver) :
    l.foldl Receiver.applySample r =
      { r with
        counter := l.foldl Counter.update r.counter
        gauge := l.foldl Gauge.update r.gauge
        histogram := l.foldl Histogram.update r.histogram } := by
  induction l generalizing r with
  | nil => rfl
  | cons s t ih =>
    rw [List.foldl_cons, ih]
    rfl


/-- A facet contributes nothing to the signed map of a snapshot under
construction unless it is a `Count` facet whose synthesised label is the
one being looked up. -/
theorem snapStep_fold_signed (r : Receiver) (L : String) (fs : List Facet)
    (snap : Snapshot)
    (h : ∀ g ∈ fs, ∀ k2, g = Facet.Count k2 → k2 ++ "_count" ≠ L) :
    lookupS (fs.foldl r.snapStep snap).signed_data L =
      lookupS snap.signed_data L := by
  induction fs generalizing snap with
  | nil => rfl
  | cons g t ih =>
    rw [List.foldl_cons]
    rw [ih _ fun g2 hg2 => h g2 (by simp [hg2])]
    cases g with
    | Count k2 =>
      exact lookupS_cons_ne _ _ (h (Facet.Count k2) (by simp) k2 rfl)
    | Gauge k2 => rfl
    | TimingPercentile k2 =>
      cases hsnap : r.histogram.snapshot k2 with
      | none => simp [Receiver.snapStep, hsnap]
      | some hs =>
        simp [Receiver.snapStep, hsnap, set_timing_percentiles_signed]
    | ValuePercentile k2 =>
      cases hsnap : r.histogram.snapshot k2 with
      | none => simp [Receiver.snapStep, hsnap]
      | some hs =>
        simp [Receiver.snapStep, hsnap, set_value_percentiles_signed]

/-- A facet satisfying `avoidsU` leaves the looked-up unsigned snapshot
label untouched. -/
theorem snapStep_fold_unsigned (r : Receiver) (L : String)
    (fs : List Facet) (snap : Snapshot)
    (h : ∀ g ∈ fs, avoidsU r L g) :
    lookupS (fs.foldl r.snapStep snap).unsigned_data L =
      lookupS snap.unsigned_data L := by
  induction fs generalizing snap with
  | nil => rfl
  | cons g t ih =>
    rw [List.foldl_cons]
    rw [ih _ fun g2 hg2 => h g2 (by simp [hg2])]
    have hg := h g (by simp)
    cases g with
    | Count k2 => rfl
    | Gauge k2 =>
      exact lookupS_cons_ne _ _ hg
    | TimingPercentile k2 =>
      cases hsnap : r.histogram.snapshot k2 with
      | none => simp [Receiver.snapStep, hsnap]
      | some hs =>
        have hstep : r.snapStep snap (Facet.TimingPercentile k2) =
            snap.set_timing_percentiles k2 hs r.percentiles := by
          simp [Receiver.snapStep, hsnap]
        rw [hstep, set_timing_percentiles_unsigned, lookupS_append]
        have hm : lookupS ((r.percentiles.map (fun p =>
            (k2 ++ "_ns_" ++ p.label, hs.value_at_percentile p.q))).reverse)
            L = none := by
          rw [← List.map_reverse]
          exact lookupS_map_none _ _ fun p hp => hg p (List.mem_reverse.mp hp)
        rw [hm]
        rfl
    | ValuePercentile k2 =>
      cases hsnap : r.histogram.snapshot k2 with
      | none => simp [Receiver.snapStep, hsnap]
      | some hs =>
        have hstep : r.snapStep snap (Facet.ValuePercentile k2) =
            snap.set_value_percentiles k2 hs r.percentiles := by
          simp [Receiver.snapStep, hsnap]
        rw [hstep, set_value_percentiles_unsigned, lookupS_append]
        have hm : lookupS ((r.percentiles.map (fun p =>
            (k2 ++ "_value_" ++ p.label, hs.value_at_percentile p.q))).reverse)
            L = none := by
          rw [← List.map_reverse]
          exact lookupS_map_none _ _ fun p hp => hg p (List.mem_reverse.mp hp)
        rw [hm]
        rfl

/-! ### The claims -/

/-- C1: in `Receiver::turn` the upkeep step runs before the poll and before
any `DATA` or `CONTROL` event is handled, and the histogram upkeep runs
whenever `now ≥ last_upkeep + 250 ms` — but `last_upkeep` is never updated,
so the claimed throttle is ineffective: starting from the epoch, the window
also rotates on a turn at `t = 2.05 s` that follows a turn at `t = 1.9 s`,
even though `1.9 s + 250 ms` has not elapsed. -/
theorem turn_upkeep_order_and_last_upkeep_never_updated :
    (∀ (r : Receiver) (now : Nat) (evts : List Token),
      r.turn now evts =
        evts.foldl Receiver.handleEvent (r.upkeepStep now)) ∧
    (∀ (r : Receiver) (now : Nat) (evts : List Token),
      (r.turn now evts).last_upkeep = r.last_upkeep) ∧
    (lookupS rcvT1.histogram.data "k").map (fun wh => wh.t_last) =
      some 1000000000 ∧
    (lookupS rcvT2.histogram.data "k").map (fun wh => wh.t_last) =
      some 2000000000 ∧
    rcvT2.last_upkeep = 0 ∧
    2050000000 < 1900000000 + 250000000 := by
  refine ⟨fun _ _ _ => rfl, fun r now evts => ?_, by decide, by decide,
    by decide, by decide⟩
  rw [Receiver.turn, foldl_handleEvent_last_upkeep, upkeepStep_last_upkeep]

/-- C6: registering the same facet twice in a row leaves the receiver (its
facet set and all three views) in exactly the state produced by registering
it once. -/
theorem add_facet_idempotent (r : Receiver) (f : Facet) :
    (r.add_facet f).add_facet f = r.add_facet f := by
  cases f <;>
    simp [Receiver.add_facet, counter_register_idem, gauge_register_idem,
      histogram_register_idem, insertFacet_idem]

/-- C7: the snapshot percentile read path depends only on the percentile's
string label, never on its numeric quantile. -/
theorem percentile_lookup_ignores_quantile (s : Snapshot) (k l : String)
    (q1 q2 : ℚ) :
    s.timing_percentile k ⟨l, q1⟩ = s.timing_percentile k ⟨l, q2⟩ ∧
    s.value_percentile k ⟨l, q1⟩ = s.value_percentile k ⟨l, q2⟩ :=
  ⟨rfl, rfl⟩

/-- C8: `Receiver::from_config` creates the buffer pool as a bounded queue
whose capacity equals the configured capacity and pre-pushes exactly
`capacity` empty batches, each with space reserved for `batch_size`
samples. -/
theorem from_config_buffer_pool (conf : Configuration) :
    (Receiver.from_config conf).bufferPool.cap = conf.capacity ∧
    (Receiver.from_config conf).bufferPool.items =
      List.replicate conf.capacity (Batch.withCapacity conf.batch_size) ∧
    (Receiver.from_config conf).bufferPool.items.length = conf.capacity ∧
    ∀ b ∈ (Receiver.from_config conf).bufferPool.items,
      b.cap = conf.batch_size ∧ b.data = [] := by
  have hp : (Receiver.from_config conf).bufferPool =
      ⟨conf.capacity,
        List.replicate conf.capacity (Batch.withCapacity conf.batch_size)⟩ := by
    have h0 := pool_fill (Batch.withCapacity conf.batch_size) conf.capacity
      (⟨conf.capacity, []⟩ : BufferPool) (by simp)
    simp only [Receiver.from_config]
    rw [h0]
    simp
  refine ⟨by rw [hp], by rw [hp], by rw [hp]; simp, ?_⟩
  intro b hb
  rw [hp] at hb
  have hb2 := List.eq_of_mem_replicate hb
  subst hb2
  exact ⟨rfl, rfl⟩

/-- C8 witness: with capacity 4 and batch size 2, the pool holds the empty
batch of reserved size 2, which indeed has the configured reservation and
no contents. -/
theorem from_config_buffer_pool_witness :
    Batch.withCapacity 2 ∈ (Receiver.from_config confS).bufferPool.items ∧
    (Batch.withCapacity 2).cap = confS.batch_size ∧
    (Batch.withCapacity 2).data = [] :=
  ⟨by decide, ((from_config_buffer_pool confS).2.2.2 _ (by decide)).1,
    ((from_config_buffer_pool confS).2.2.2 _ (by decide)).2⟩

/-- C9: a receiver built from any configuration creates its windowed
histogram view with a 10 second window and a 1 second interval. -/
theorem from_config_histogram_window (conf : Configuration) :
    (Receiver.from_config conf).histogram.window = 10 * 1000000000 ∧
    (Receiver.from_config conf).histogram.interval = 1 * 1000000000 :=
  ⟨rfl, rfl⟩

/-- C10: `default_percentiles` returns exactly six percentiles, in order:
min 0, p50 50, p90 90, p99 99, p999 99.9 and max 100. -/
theorem default_percentiles_spec :
    default_percentiles =
      [⟨"min", 0⟩, ⟨"p50", 50⟩, ⟨"p90", 90⟩, ⟨"p99", 99⟩,
        ⟨"p999", (999 : ℚ) / 10⟩, ⟨"max", 100⟩] ∧
    default_percentiles.length = 6 := by
  constructor
  · norm_num [default_percentiles]
  · rfl

/-- C3: a ready `DATA` event receives exactly one batch — the head of the
data queue — applies every one of its samples to all three views (the fold
runs over the whole batch unconditionally; the facet set is not consulted),
then clears the batch and returns it to the buffer pool. -/
theorem data_event_applies_batch (r : Receiver) (b : Batch)
    (rest : List Batch) (hq : r.dataQueue = b :: rest)
    (hpool : r.bufferPool.items.length < r.bufferPool.cap) :
    (r.handleEvent Token.DATA).counter =
      b.data.foldl Counter.update r.counter ∧
    (r.handleEvent Token.DATA).gauge =
      b.data.foldl Gauge.update r.gauge ∧
    (r.handleEvent Token.DATA).histogram =
      b.data.foldl Histogram.update r.histogram ∧
    (r.handleEvent Token.DATA).dataQueue = rest ∧
    (r.handleEvent Token.DATA).bufferPool.items =
      r.bufferPool.items ++ [b.clear] ∧
    (r.handleEvent Token.DATA).bufferPool.cap = r.bufferPool.cap ∧
    (r.handleEvent Token.DATA).facets = r.facets ∧
    b.clear.data = [] ∧ b.clear.cap = b.cap := by
  simp only [Receiver.handleEvent, hq]
  rw [foldl_applySample_eq]
  refine ⟨rfl, rfl, rfl, rfl, ?_, ?_, rfl, rfl, rfl⟩
  · show (BufferPool.push _ _).items = _
    unfold BufferPool.push
    rw [if_pos (by simpa using hpool)]
  · show (BufferPool.push _ _).cap = _
    unfold BufferPool.push
    rw [if_pos (by simpa using hpool)]

/-- C3 witness: a receiver with one queued one-sample batch and pool space
satisfies the hypotheses, and handling the `DATA` event drains the queue. -/
theorem data_event_applies_batch_witness :
    rcvD.dataQueue = Batch.mk 2 [Sample.Count "k" 3] :: [] ∧
    rcvD.bufferPool.items.length < rcvD.bufferPool.cap ∧
    (rcvD.handleEvent Token.DATA).dataQueue = [] :=
  ⟨by decide, by decide,
    (data_event_applies_batch rcvD (Batch.mk 2 [Sample.Count "k" 3]) []
      (by decide) (by decide)).2.2.2.1⟩

/-- C5 counterexample: the claim fails for percentile lists with repeated
labels.  For `ps = [("a", 0), ("a", 100)]` over the histogram `{1, 1000}`,
the stored entry for label `"a"` is overwritten by the second pair, so the
getter applied to the first pair returns `Some 1000` instead of
`Some (h.value_at_percentile 0) = Some 1`. -/
theorem percentile_setter_duplicate_label_counterexample :
    (Snapshot.new.set_timing_percentiles "k" hdrCE
      [⟨"a", q0⟩, ⟨"a", q100⟩]).timing_percentile "k" ⟨"a", q0⟩ =
      some 1000 ∧
    hdrCE.value_at_percentile q0 = 1 ∧
    (Snapshot.new.set_timing_percentiles "k" hdrCE
      [⟨"a", q0⟩, ⟨"a", q100⟩]).timing_percentile "k" ⟨"a", q0⟩ ≠
      some (hdrCE.value_at_percentile q0) := by
  decide

/-- C5 (amended): `set_count`/`set_value` roundtrip with `count`/`value`
under the synthesised labels; `set_timing_percentiles` and
`set_value_percentiles` roundtrip with their getters for every entry of a
percentile list whose labels are pairwise distinct (with a repeated label
the last entry wins); and on any snapshot built by a sequence of setter
calls, a getter whose synthesised label was stored by no setter of the
sequence returns `None`. -/
theorem snapshot_setter_getter_roundtrip :
    (∀ (s : Snapshot) (k : String) (v : Int),
      (s.set_count k v).count k = some v) ∧
    (∀ (s : Snapshot) (k : String) (v : Nat),
      (s.set_value k v).value k = some v) ∧
    (∀ (s : Snapshot) (k : String) (h : Hdr) (ps : List Percentile)
      (p : Percentile), (ps.map Percentile.label).Nodup → p ∈ ps →
      (s.set_timing_percentiles k h ps).timing_percentile k p =
        some (h.value_at_percentile p.q)) ∧
    (∀ (s : Snapshot) (k : String) (h : Hdr) (ps : List Percentile)
      (p : Percentile), (ps.map Percentile.label).Nodup → p ∈ ps →
      (s.set_value_percentiles k h ps).value_percentile k p =
        some (h.value_at_percentile p.q)) ∧
    (∀ (ops : List SetterOp) (k : String),
      (∀ op ∈ ops, (k ++ "_count") ∉ op.signedLabels) →
      (applyOps Snapshot.new ops).count k = none) ∧
    (∀ (ops : List SetterOp) (k : String),
      (∀ op ∈ ops, (k ++ "_value") ∉ op.unsignedLabels) →
      (applyOps Snapshot.new ops).value k = none) ∧
    (∀ (ops : List SetterOp) (k : String) (p : Percentile),
      (∀ op ∈ ops, (k ++ "_ns_" ++ p.label) ∉ op.unsignedLabels) →
      (applyOps Snapshot.new ops).timing_percentile k p = none) ∧
    (∀ (ops : List SetterOp) (k : String) (p : Percentile),
      (∀ op ∈ ops, (k ++ "_value_" ++ p.label) ∉ op.unsignedLabels) →
      (applyOps Snapshot.new ops).value_percentile k p = none) := by
  refine ⟨?_, ?_, ?_, ?_, ?_, ?_, ?_, ?_⟩
  · intro s k v
    exact lookupS_cons_eq _ _ _
  · intro s k v
    exact lookupS_cons_eq _ _ _
  · intro s k h ps p hnd hmem
    show lookupS (s.set_timing_percentiles k h ps).unsigned_data
      (k ++ "_ns_" ++ p.label) = _
    rw [set_timing_percentiles_unsigned, lookupS_append, ← List.map_reverse]
    rw [lookupS_map_some (fun r => k ++ "_ns_" ++ r.label)
      (fun r => h.value_at_percentile r.q) (List.mem_reverse.mpr hmem)
      (fun r hr he => by
        have hrp : r = p :=
          List.inj_on_of_nodup_map hnd (List.mem_reverse.mp hr) hmem
            (appLeftCancel (k ++ "_ns_") he)
        rw [hrp])]
    rfl
  · intro s k h ps p hnd hmem
    show lookupS (s.set_value_percentiles k h ps).unsigned_data
      (k ++ "_value_" ++ p.label) = _
    rw [set_value_percentiles_unsigned, lookupS_append, ← List.map_reverse]
    rw [lookupS_map_some (fun r => k ++ "_value_" ++ r.label)
      (fun r => h.value_at_percentile r.q) (List.mem_reverse.mpr hmem)
      (fun r hr he => by
        have hrp : r = p :=
          List.inj_on_of_nodup_map hnd (List.mem_reverse.mp hr) hmem
            (appLeftCancel (k ++ "_value_") he)
        rw [hrp])]
    rfl
  · intro ops k h
    show lookupS (applyOps Snapshot.new ops).signed_data
      (k ++ "_count") = none
    rw [applyOps_signed_lookup ops Snapshot.new _ h]
    rfl
  · intro ops k h
    show lookupS (applyOps Snapshot.new ops).unsigned_data
      (k ++ "_value") = none
    rw [applyOps_unsigned_lookup ops Snapshot.new _ h]
    rfl
  · intro ops k p h
    show lookupS (applyOps Snapshot.new ops).unsigned_data
      (k ++ "_ns_" ++ p.label) = none
    rw [applyOps_unsigned_lookup ops Snapshot.new _ h]
    rfl
  · intro ops k p h
    show lookupS (applyOps Snapshot.new ops).unsigned_data
      (k ++ "_value_" ++ p.label) = none
    rw [applyOps_unsigned_lookup ops Snapshot.new _ h]
    rfl

/-- C5 witness: for the two-element distinct-label list the roundtrip holds
at the first entry; the count roundtrip stores and returns 7; and lookups
whose label no setter stored miss: a count lookup under a different key
after a count setter ran, and a timing percentile lookup with a label
outside the stored list. -/
theorem snapshot_setter_getter_roundtrip_witness :
    (([⟨"a", q0⟩, ⟨"b", q100⟩] : List Percentile).map
      Percentile.label).Nodup ∧
    (⟨"a", q0⟩ : Percentile) ∈ ([⟨"a", q0⟩, ⟨"b", q100⟩] : List Percentile) ∧
    (Snapshot.new.set_timing_percentiles "k" hdrCE
      [⟨"a", q0⟩, ⟨"b", q100⟩]).timing_percentile "k" ⟨"a", q0⟩ =
      some (hdrCE.value_at_percentile q0) ∧
    (Snapshot.new.set_count "k" 7).count "k" = some 7 ∧
    (∀ op ∈ [SetterOp.count "a" 1], ("b" ++ "_count") ∉ op.signedLabels) ∧
    (applyOps Snapshot.new [SetterOp.count "a" 1]).count "b" = none ∧
    (∀ op ∈ [SetterOp.timing "k" hdrCE [⟨"a", q0⟩]],
      ("k" ++ "_ns_" ++ (⟨"z", q0⟩ : Percentile).label) ∉
        op.unsignedLabels) ∧
    (applyOps Snapshot.new
      [SetterOp.timing "k" hdrCE [⟨"a", q0⟩]]).timing_percentile "k"
      ⟨"z", q0⟩ = none :=
  ⟨by decide, by decide,
    snapshot_setter_getter_roundtrip.2.2.1 Snapshot.new "k" hdrCE
      [⟨"a", q0⟩, ⟨"b", q100⟩] ⟨"a", q0⟩ (by decide) (by decide),
    snapshot_setter_getter_roundtrip.1 Snapshot.new "k" 7,
    by decide,
    snapshot_setter_getter_roundtrip.2.2.2.2.1
      [SetterOp.count "a" 1] "b" (by decide),
    by decide,
    snapshot_setter_getter_roundtrip.2.2.2.2.2.2.1
      [SetterOp.timing "k" hdrCE [⟨"a", q0⟩]] "k" ⟨"z", q0⟩ (by decide)⟩

/-- The default percentile list as a literal. -/
theorem default_percentiles_eq :
    default_percentiles =
      [⟨"min", 0.0⟩, ⟨"p50", 50.0⟩, ⟨"p90", 90.0⟩, ⟨"p99", 99.0⟩,
        ⟨"p999", 99.9⟩, ⟨"max", 100.0⟩] := rfl

/-- The labels of the default percentiles are pairwise distinct. -/
theorem default_percentiles_labels_nodup :
    (default_percentiles.map Percentile.label).Nodup := by decide

/-- C2 counterexample: with count, gauge and timing-percentile facets
registered for `"k"` and no sample received, the served snapshot yields
`Some 0` — not `None` — for a timing percentile lookup: the registered key
has an (empty) histogram ring, so `histogram.snapshot` is `Some` and the
percentile entries are emitted with the empty histogram's value 0. -/
theorem snapshot_before_data_counterexample :
    rcvF.buildSnapshot.count "k" = some 0 ∧
    rcvF.buildSnapshot.value "k" = some 0 ∧
    rcvF.buildSnapshot.timing_percentile "k" ⟨"min", q0⟩ = some 0 ∧
    rcvF.buildSnapshot.timing_percentile "k" ⟨"min", q0⟩ ≠ none := by
  decide

/-- C2 (amended): registering `Count(k)`, `Gauge(k)` and
`TimingPercentile(k)` on a fresh receiver and snapshotting before any data
yields `count(k) = Some 0`, `value(k) = Some 0`, and — because the
registered key owns an empty histogram ring — `Some 0` for every configured
timing percentile label, while value-percentile lookups (whose facet is not
registered) return `None`. -/
theorem snapshot_before_data (conf : Configuration) (k : String) :
    let r := (((Receiver.from_config conf).add_facet
      (Facet.Count k)).add_facet (Facet.Gauge k)).add_facet
      (Facet.TimingPercentile k)
    r.buildSnapshot.count k = some 0 ∧
    r.buildSnapshot.value k = some 0 ∧
    (∀ p ∈ default_percentiles,
      r.buildSnapshot.timing_percentile k p = some 0) ∧
    (∀ p : Percentile, r.buildSnapshot.value_percentile k p = none) := by
  intro r
  have hb : r.buildSnapshot =
      ((Snapshot.new.set_count k 0).set_value k 0).set_timing_percentiles k
        Hdr.empty default_percentiles := by
    show ([Facet.Count k, Facet.Gauge k,
      Facet.TimingPercentile k].foldl r.snapStep Snapshot.new) = _
    simp only [List.foldl_cons, List.foldl_nil]
    have h1 : ∀ sn : Snapshot,
        r.snapStep sn (Facet.Count k) = sn.set_count k 0 := by
      intro sn
      show sn.set_count k (r.counter.value k) = sn.set_count k 0
      have hv : r.counter.value k = 0 := by
        show (lookupS [(k, 0)] k).getD 0 = 0
        rw [lookupS_cons_eq]
        rfl
      rw [hv]
    have h2 : ∀ sn : Snapshot,
        r.snapStep sn (Facet.Gauge k) = sn.set_value k 0 := by
      intro sn
      show sn.set_value k (r.gauge.value k) = sn.set_value k 0
      have hv : r.gauge.value k = 0 := by
        show (lookupS [(k, 0)] k).getD 0 = 0
        rw [lookupS_cons_eq]
        rfl
      rw [hv]
    have h3 : ∀ sn : Snapshot,
        r.snapStep sn (Facet.TimingPercentile k) =
          sn.set_timing_percentiles k Hdr.empty default_percentiles := by
      intro sn
      show (match r.histogram.snapshot k with
        | some hs => sn.set_timing_percentiles k hs r.percentiles
        | none => sn) = _
      have hsnap : r.histogram.snapshot k = some Hdr.empty := by
        show (lookupS [(k, WindowedHistogram.new (10 * 1000000000)
          (1 * 1000000000))] k).map (fun wh => wh.live) = _
        rw [lookupS_cons_eq]
        rfl
      rw [hsnap]
      rfl
    rw [h1, h2, h3]
  refine ⟨?_, ?_, ?_, ?_⟩
  · rw [hb]
    show lookupS (((Snapshot.new.set_count k 0).set_value k
      0).set_timing_percentiles k Hdr.empty
      default_percentiles).signed_data (k ++ "_count") = some 0
    rw [set_timing_percentiles_signed]
    exact lookupS_cons_eq _ _ _
  · rw [hb]
    show lookupS (((Snapshot.new.set_count k 0).set_value k
      0).set_timing_percentiles k Hdr.empty
      default_percentiles).unsigned_data (k ++ "_value") = some 0
    rw [set_timing_percentiles_unsigned, lookupS_append, ← List.map_reverse]
    have hn : ∀ r2 ∈ default_percentiles.reverse,
        k ++ "_ns_" ++ r2.label ≠ k ++ "_value" := by
      intro r2 _
      rw [strAssoc]
      exact appLeftNe k (appTakeNeR 2 _ (by decide) (by decide) (by decide))
    rw [lookupS_map_none (fun r2 : Percentile => k ++ "_ns_" ++ r2.label)
      (fun r2 : Percentile => Hdr.empty.value_at_percentile r2.q) hn]
    exact lookupS_cons_eq _ _ _
  · intro p hp
    rw [hb]
    show lookupS (((Snapshot.new.set_count k 0).set_value k
      0).set_timing_percentiles k Hdr.empty
      default_percentiles).unsigned_data (k ++ "_ns_" ++ p.label) = some 0
    rw [set_timing_percentiles_unsigned, lookupS_append, ← List.map_reverse]
    rw [lookupS_map_some (fun r2 => k ++ "_ns_" ++ r2.label)
      (fun r2 => Hdr.empty.value_at_percentile r2.q)
      (List.mem_reverse.mpr hp) (fun r2 hr he => by
        have hr2 : r2 = p :=
          List.inj_on_of_nodup_map default_percentiles_labels_nodup
            (List.mem_reverse.mp hr) hp (appLeftCancel (k ++ "_ns_") he)
        rw [hr2])]
    rfl
  · intro p
    rw [hb]
    show lookupS (((Snapshot.new.set_count k 0).set_value k
      0).set_timing_percentiles k Hdr.empty
      default_percentiles).unsigned_data (k ++ "_value_" ++ p.label) = none
    rw [set_timing_percentiles_unsigned, lookupS_append, ← List.map_reverse]
    have hn : ∀ r2 ∈ default_percentiles.reverse,
        k ++ "_ns_" ++ r2.label ≠ k ++ "_value_" ++ p.label := by
      intro r2 _
      rw [strAssoc, strAssoc]
      exact appLeftNe k (appTakeNe 2 _ _ (by decide) (by decide) (by decide))
    rw [lookupS_map_none (fun r2 : Percentile => k ++ "_ns_" ++ r2.label)
      (fun r2 : Percentile => Hdr.empty.value_at_percentile r2.q) hn]
    have hne : k ++ "_value" ≠ k ++ "_value_" ++ p.label := by
      rw [strAssoc]
      refine appLeftNe k (lenNe ?_)
      have h2 : ("_value_" ++ p.label).data.length =
          7 + p.label.data.length := by
        show ("_value_".data ++ p.label.data).length = _
        rw [List.length_append]
        rfl
      have h1 : "_value".data.length = 6 := rfl
      omega
    show lookupS ((k ++ "_value", 0) :: Snapshot.new.unsigned_data)
      (k ++ "_value_" ++ p.label) = none
    rw [lookupS_cons_ne _ _ hne]
    rfl

/-- C2 witness: at the concrete instance, count and gauge read zero and the
`min` timing percentile is present with value 0. -/
theorem snapshot_before_data_witness :
    (⟨"min", 0.0⟩ : Percentile) ∈ default_percentiles ∧
    rcvF.buildSnapshot.count "k" = some 0 ∧
    rcvF.buildSnapshot.timing_percentile "k" ⟨"min", 0.0⟩ = some 0 := by
  refine ⟨List.mem_cons_self _ _, ?_, ?_⟩
  · exact (snapshot_before_data confS "k").1
  · exact (snapshot_before_data confS "k").2.2.1 ⟨"min", 0.0⟩
      (List.mem_cons_self _ _)

/-- C4 counterexample: the counter view has recorded the total 5 for key
`"k"`; after `remove_facet(Count "k")` that recorded state is gone — the
deregistration removes the key and its total from the view (re-registering
would restart from the stored default 0), so prior view state IS erased. -/
theorem remove_facet_erases_state_counterexample :
    lookupS rcvC1.counter.data "k" = some 5 ∧
    lookupS rcvC2.counter.data "k" = none := by
  decide

/-- C4 (amended): removing a facet removes it from the facet set, and every
snapshot served from a state whose facet set does not contain the facet
(and whose percentile list is the default one) synthesises no entry for it:
the corresponding getter returns `None` for its key.  However, the view
state recorded for the facet's key IS erased: deregistration removes the
key from the backing view map. -/
theorem remove_facet_suppresses_and_erases (r : Receiver) (f : Facet) :
    f ∉ (r.remove_facet f).facets ∧
    (match f with
      | .Count k => lookupS (r.remove_facet f).counter.data k = none
      | .Gauge k => lookupS (r.remove_facet f).gauge.data k = none
      | .TimingPercentile k =>
        lookupS (r.remove_facet f).histogram.data k = none
      | .ValuePercentile k =>
        lookupS (r.remove_facet f).histogram.data k = none) ∧
    (∀ r2 : Receiver, r2.percentiles = default_percentiles →
      f ∉ r2.facets →
      match f with
      | .Count k => r2.buildSnapshot.count k = none
      | .Gauge k => r2.buildSnapshot.value k = none
      | .TimingPercentile k => ∀ p ∈ default_percentiles,
          r2.buildSnapshot.timing_percentile k p = none
      | .ValuePercentile k => ∀ p ∈ default_percentiles,
          r2.buildSnapshot.value_percentile k p = none) := by
  refine ⟨?_, ?_, ?_⟩
  · cases f <;> simp [Receiver.remove_facet]
  · cases f with
    | Count k => exact lookupS_removeS _ _
    | Gauge k => exact lookupS_removeS _ _
    | TimingPercentile k => exact lookupS_removeS _ _
    | ValuePercentile k => exact lookupS_removeS _ _
  · intro r2 hp hmem
    cases f with
    | Count k =>
      show lookupS (r2.facets.foldl r2.snapStep Snapshot.new).signed_data
        (k ++ "_count") = none
      rw [snapStep_fold_signed r2 (k ++ "_count") r2.facets Snapshot.new
        (fun g hg k2 hgk => by
          subst hgk
          exact appRightNe _ (fun e => hmem (by rw [← e]; exact hg)))]
      rfl
    | Gauge k =>
      show lookupS (r2.facets.foldl r2.snapStep Snapshot.new).unsigned_data
        (k ++ "_value") = none
      rw [snapStep_fold_unsigned r2 (k ++ "_value") r2.facets Snapshot.new
        (fun g hg => by
          cases g with
          | Count k2 => trivial
          | Gauge k2 =>
            exact appRightNe _ (fun e => hmem (by rw [← e]; exact hg))
          | TimingPercentile k2 =>
            intro p hpp
            rw [hp, default_percentiles_eq] at hpp
            fin_cases hpp <;>
              exact revTakeNe 3 _ _ (by decide) (by decide) (by decide)
          | ValuePercentile k2 =>
            intro p hpp
            rw [hp, default_percentiles_eq] at hpp
            fin_cases hpp <;>
              exact revTakeNe 3 _ _ (by decide) (by decide) (by decide))]
      rfl
    | TimingPercentile k =>
      intro p0 hp0
      rw [default_percentiles_eq] at hp0
      show lookupS (r2.facets.foldl r2.snapStep Snapshot.new).unsigned_data
        (k ++ "_ns_" ++ p0.label) = none
      rw [snapStep_fold_unsigned r2 (k ++ "_ns_" ++ p0.label) r2.facets
        Snapshot.new (fun g hg => by
          cases g with
          | Count k2 => trivial
          | Gauge k2 =>
            fin_cases hp0 <;>
              exact revTakeNe 3 _ _ (by decide) (by decide) (by decide)
          | TimingPercentile k2 =>
            intro p hpp
            rw [hp, default_percentiles_eq] at hpp
            fin_cases hpp <;> fin_cases hp0 <;>
              first
              | exact revTakeNe 3 _ _ (by decide) (by decide) (by decide)
              | exact appRightNe _
                  (appRightNe _ (fun e => hmem (by rw [← e]; exact hg)))
          | ValuePercentile k2 =>
            intro p hpp
            rw [hp, default_percentiles_eq] at hpp
            fin_cases hpp <;> fin_cases hp0 <;>
              first
              | exact revTakeNe 3 _ _ (by decide) (by decide) (by decide)
              | exact appRightNe _
                  (revTakeNe 4 _ _ (by decide) (by decide) (by decide)))]
      rfl
    | ValuePercentile k =>
      intro p0 hp0
      rw [default_percentiles_eq] at hp0
      show lookupS (r2.facets.foldl r2.snapStep Snapshot.new).unsigned_data
        (k ++ "_value_" ++ p0.label) = none
      rw [snapStep_fold_unsigned r2 (k ++ "_value_" ++ p0.label) r2.facets
        Snapshot.new (fun g hg => by
          cases g with
          | Count k2 => trivial
          | Gauge k2 =>
            fin_cases hp0 <;>
              exact revTakeNe 3 _ _ (by decide) (by decide) (by decide)
          | TimingPercentile k2 =>
            intro p hpp
            rw [hp, default_percentiles_eq] at hpp
            fin_cases hpp <;> fin_cases hp0 <;>
              first
              | exact revTakeNe 3 _ _ (by decide) (by decide) (by decide)
              | exact appRightNe _
                  (revTakeNe 4 _ _ (by decide) (by decide) (by decide))
          | ValuePercentile k2 =>
            intro p hpp
            rw [hp, default_percentiles_eq] at hpp
            fin_cases hpp <;> fin_cases hp0 <;>
              first
              | exact revTakeNe 3 _ _ (by decide) (by decide) (by decide)
              | exact appRightNe _
                  (appRightNe _ (fun e => hmem (by rw [← e]; exact hg))))]
      rfl

/-- C4 witness: removing the count facet for `"k"` removes it from the
facet set, leaves no counter state for `"k"`, and the next snapshot has no
count entry for `"k"`. -/
theorem remove_facet_suppresses_and_erases_witness :
    Facet.Count "k" ∉ rcvC2.facets ∧
    lookupS rcvC2.counter.data "k" = none ∧
    rcvC2.buildSnapshot.count "k" = none := by
  have h := remove_facet_suppresses_and_erases rcvC1 (Facet.Count "k")
  exact ⟨h.1, h.2.1, h.2.2 rcvC2 rfl (by decide)⟩
